import Mathlib

/-!
Verification development for the Reddit comment harvesting-and-ranking
pipeline.  The definitions below are a shallow embedding of the TypeScript
source.  The pipeline exists in two near-identical copies (a client-side
copy and a server-side copy); the credential manager, rate-limited client,
tree extractor, cache and scoring code are line-for-line identical in both,
and the embedding follows the client copy, which is the complete one
(it is the copy containing `processCommentsWithSearchTerms`).

Modelling conventions:
* JavaScript numbers holding integer quantities (upvotes, timestamps in
  epoch milliseconds, counters) are modelled as `Int` or `Nat`.
* JavaScript numbers holding score values (`Math.log10`-based scores) are
  modelled as real numbers, `Math.log10 x` becoming `Real.logb 10 x`.
* ISO-8601 timestamp strings are modelled by the epoch-millisecond instant
  they denote (the code converts epoch seconds to ISO strings on the way in
  and parses them back with `new Date(...).getTime()` on the way out, an
  identity round trip).
* A JavaScript `Map` is modelled as an association list in insertion order,
  matching `Map` iteration order; `Map.set` on an existing key replaces the
  value in place, otherwise appends.
* `Array.prototype.sort`, which is required to be stable, is modelled as a
  stable insertion sort over the boolean relation "comparator result is
  non-positive".
* Fallible JavaScript code (a `throw` reaching a `try`/`catch`) is modelled
  with `Except`/`Option`.
-/

/-- Sentiment classification attached to a comment. -/
inductive Sentiment where
  | positive
  | negative
  | neutral
deriving DecidableEq

/-- The `RedditComment` record of the source.  `upvotes` is the raw upvote
count, `timestamp` the epoch-millisecond instant denoted by the stored
ISO-8601 string, `matchScore` the integer match count stored by the filter,
`score` the real-valued ranking score. -/
structure RedditComment where
  id : String
  author : String
  body : String
  subreddit : String
  upvotes : Int
  timestamp : Int
  permalink : Option String := none
  matchScore : Option Nat := none
  score : Option Real := none
  awards : Option Int := none
  sentiment : Option Sentiment := none

/-! ## The cache (`SearchCache` of the source)

`get` returns the cached list unless the entry is older than `ttl`, in which
case the entry is deleted and `null` is returned.  `set` evicts the entry
with the smallest timestamp (first in insertion order on ties, which is what
the stable `sort(...)[0]` of the source selects) whenever the map already
holds at least `maxSize` entries, then inserts with a fresh timestamp.  An
entry is a `(key, timestamp, results)` triple. -/

/-- One cache entry: key, insertion timestamp (ms), cached results. -/
abbrev CacheEntry := String × Int × List RedditComment

/-- The `SearchCache` class: bounded map from keys to timestamped results. -/
structure SearchCache where
  maxSize : Nat
  ttl : Int
  entries : List CacheEntry

/-- `Map.set` semantics: replace in place if the key is present, otherwise
append at the end (insertion order). -/
def jsMapSet (entries : List CacheEntry) (key : String) (ts : Int)
    (results : List RedditComment) : List CacheEntry :=
  if entries.any (fun e => e.1 == key) then
    entries.map (fun e => if e.1 == key then (key, ts, results) else e)
  else
    entries ++ [(key, ts, results)]

/-- `Map.delete` semantics: remove the (unique) entry with the given key.  -/
def jsMapDelete (entries : List CacheEntry) (key : String) : List CacheEntry :=
  entries.eraseP (fun e => e.1 == key)

/-- Comparison step keeping the earlier entry on timestamp ties, so that the
fold below returns the first entry (in insertion order) among those with the
minimal timestamp. -/
def olderEntry (best x : CacheEntry) : CacheEntry :=
  if x.2.1 < best.2.1 then x else best

/-- The entry selected by `Array.from(entries).sort((a, b) => a.ts - b.ts)[0]`
of the source: stable sort by timestamp and take the head, i.e. the first
entry (in insertion order) among those with minimal timestamp. -/
def oldestEntry : List CacheEntry → Option CacheEntry
  | [] => none
  | e :: es => some (es.foldl olderEntry e)

/-- `SearchCache.get`: absent if no entry; if the entry is older than `ttl`
it is deleted (lazy eviction) and absent is returned; otherwise the stored
results are returned.  The returned cache reflects the possible deletion. -/
def SearchCache.get (c : SearchCache) (key : String) (now : Int) :
    Option (List RedditComment) × SearchCache :=
  match c.entries.find? (fun e => e.1 == key) with
  | none => (none, c)
  | some e =>
    if c.ttl < now - e.2.1 then
      (none, { c with entries := jsMapDelete c.entries key })
    else
      (some e.2.2, c)

/-- `SearchCache.set`: if at least `maxSize` entries are present, first
delete the oldest entry (the source crashes with a `TypeError` when the map
is simultaneously empty, modelled by `none`), then insert the new entry with
a fresh timestamp. -/
def SearchCache.set (c : SearchCache) (key : String)
    (results : List RedditComment) (now : Int) : Option SearchCache :=
  if c.maxSize ≤ c.entries.length then
    match oldestEntry c.entries with
    | none => none
    | some old =>
      some { c with entries := jsMapSet (jsMapDelete c.entries old.1) key now results }
  else
    some { c with entries := jsMapSet c.entries key now results }

/-- Keys currently stored in a cache entry list. -/
def cacheKeys (entries : List CacheEntry) : List String :=
  entries.map (fun e => e.1)

/-- Well-formedness carried by every reachable cache: keys are distinct
(a JavaScript `Map` cannot hold a key twice). -/
def CacheKeysWF (c : SearchCache) : Prop :=
  (cacheKeys c.entries).Nodup

/-! ### Cache lemmas -/

theorem find?_replace_self (entries : List CacheEntry) (key : String) (ts : Int)
    (results : List RedditComment) (h : entries.any (fun e => e.1 == key)) :
    (entries.map (fun e => if e.1 == key then (key, ts, results) else e)).find?
        (fun e => e.1 == key) = some (key, ts, results) := by
  induction entries with
  | nil => simp at h
  | cons e es ih =>
    by_cases he : e.1 == key
    · simp [he, List.find?]
    · have h' : es.any (fun e => e.1 == key) := by
        simp only [List.any_cons, Bool.or_eq_true] at h
        rcases h with h | h
        · exact absurd h he
        · exact h
      simpa [List.find?, he] using ih h'

theorem find?_append_self (entries : List CacheEntry) (key : String) (ts : Int)
    (results : List RedditComment) (h : ¬ entries.any (fun e => e.1 == key)) :
    (entries ++ [(key, ts, results)]).find? (fun e => e.1 == key)
      = some (key, ts, results) := by
  induction entries with
  | nil => simp [List.find?]
  | cons e es ih =>
    simp only [List.any_cons, Bool.or_eq_true, not_or] at h
    have := ih (by simpa using h.2)
    simpa [List.find?, h.1] using this

theorem jsMapSet_find?_self (entries : List CacheEntry) (key : String) (ts : Int)
    (results : List RedditComment) :
    (jsMapSet entries key ts results).find? (fun e => e.1 == key)
      = some (key, ts, results) := by
  unfold jsMapSet
  by_cases h : entries.any (fun e => e.1 == key)
  · simpa [h] using find?_replace_self entries key ts results h
  · simpa [h] using find?_append_self entries key ts results h

theorem jsMapSet_mem (entries : List CacheEntry) (key : String) (ts : Int)
    (results : List RedditComment) (e : CacheEntry)
    (he : e ∈ jsMapSet entries key ts results) :
    e ∈ entries ∨ e = (key, ts, results) := by
  unfold jsMapSet at he
  by_cases h : entries.any (fun e => e.1 == key)
  · rw [if_pos h] at he
    obtain ⟨x, hx, hxe⟩ := List.mem_map.mp he
    by_cases hk : x.1 == key
    · rw [if_pos hk] at hxe
      exact Or.inr hxe.symm
    · rw [if_neg hk] at hxe
      exact Or.inl (hxe ▸ hx)
  · rw [if_neg h] at he
    simpa [List.mem_append] using he

theorem length_jsMapSet (entries : List CacheEntry) (key : String) (ts : Int)
    (results : List RedditComment) :
    (jsMapSet entries key ts results).length ≤ entries.length + 1 := by
  unfold jsMapSet
  by_cases h : entries.any (fun e => e.1 == key)
  · rw [if_pos h]; simp
  · rw [if_neg h]; simp

theorem cacheKeys_jsMapSet_replace (entries : List CacheEntry) (key : String)
    (ts : Int) (results : List RedditComment)
    (h : entries.any (fun e => e.1 == key)) :
    cacheKeys (jsMapSet entries key ts results) = cacheKeys entries := by
  unfold jsMapSet cacheKeys
  rw [if_pos h, List.map_map]
  refine List.map_congr_left (fun e _ => ?_)
  by_cases hk : e.1 == key
  · simp only [Function.comp_apply]
    rw [if_pos hk]
    exact (eq_of_beq hk).symm
  · simp only [Function.comp_apply]
    rw [if_neg hk]

theorem nodup_cacheKeys_jsMapSet (entries : List CacheEntry) (key : String)
    (ts : Int) (results : List RedditComment)
    (h : (cacheKeys entries).Nodup) :
    (cacheKeys (jsMapSet entries key ts results)).Nodup := by
  by_cases ha : entries.any (fun e => e.1 == key)
  · rw [cacheKeys_jsMapSet_replace entries key ts results ha]; exact h
  · unfold jsMapSet cacheKeys
    rw [if_neg ha]
    simp only [List.map_append, List.map_cons, List.map_nil]
    rw [List.nodup_append]
    refine ⟨h, List.nodup_singleton key, ?_⟩
    intro a hak hk
    simp only [List.mem_singleton] at hk
    subst hk
    simp only [List.any_eq_true, not_exists, not_and] at ha
    obtain ⟨e, he, hek⟩ := List.mem_map.mp hak
    exact ha e he (by simp [hek])

theorem nodup_cacheKeys_jsMapDelete (entries : List CacheEntry) (key : String)
    (h : (cacheKeys entries).Nodup) :
    (cacheKeys (jsMapDelete entries key)).Nodup :=
  List.Nodup.sublist (List.Sublist.map _ (List.eraseP_sublist entries)) h

theorem not_mem_cacheKeys_jsMapDelete (entries : List CacheEntry) (key : String)
    (h : (cacheKeys entries).Nodup) :
    key ∉ cacheKeys (jsMapDelete entries key) := by
  induction entries with
  | nil => simp [jsMapDelete, cacheKeys]
  | cons e es ih =>
    unfold cacheKeys at h
    simp only [List.map_cons, List.nodup_cons] at h
    by_cases hk : e.1 == key
    · have hdel : jsMapDelete (e :: es) key = es := by
        simp [jsMapDelete, List.eraseP_cons, hk]
      rw [hdel]
      have hek : e.1 = key := eq_of_beq hk
      intro hc
      exact h.1 (hek ▸ hc)
    · have hdel : jsMapDelete (e :: es) key = e :: jsMapDelete es key := by
        simp [jsMapDelete, List.eraseP_cons, hk]
      rw [hdel]
      intro hc
      unfold cacheKeys at hc
      simp only [List.map_cons, List.mem_cons] at hc
      rcases hc with hc | hc
      · exact absurd (by simp [hc]) hk
      · exact ih h.2 hc

theorem foldl_olderEntry_mem (es : List CacheEntry) (b : CacheEntry) :
    es.foldl olderEntry b = b ∨ es.foldl olderEntry b ∈ es := by
  induction es generalizing b with
  | nil => exact Or.inl rfl
  | cons x xs ih =>
    simp only [List.foldl_cons]
    rcases ih (olderEntry b x) with h | h
    · rw [h]
      unfold olderEntry
      by_cases hx : x.2.1 < b.2.1
      · rw [if_pos hx]
        exact Or.inr (List.mem_cons_self x xs)
      · rw [if_neg hx]
        exact Or.inl rfl
    · exact Or.inr (List.mem_cons_of_mem x h)

theorem foldl_olderEntry_le_acc (es : List CacheEntry) (b : CacheEntry) :
    (es.foldl olderEntry b).2.1 ≤ b.2.1 := by
  induction es generalizing b with
  | nil => exact le_refl _
  | cons x xs ih =>
    simp only [List.foldl_cons]
    refine le_trans (ih (olderEntry b x)) ?_
    unfold olderEntry
    by_cases hx : x.2.1 < b.2.1
    · rw [if_pos hx]; exact le_of_lt hx
    · rw [if_neg hx]

theorem foldl_olderEntry_le_mem (es : List CacheEntry) (b : CacheEntry) :
    ∀ y ∈ es, (es.foldl olderEntry b).2.1 ≤ y.2.1 := by
  induction es generalizing b with
  | nil => intro y hy; simp at hy
  | cons x xs ih =>
    intro y hy
    simp only [List.foldl_cons]
    rcases List.mem_cons.mp hy with hy | hy
    · subst hy
      refine le_trans (foldl_olderEntry_le_acc xs (olderEntry b y)) ?_
      unfold olderEntry
      by_cases hx : y.2.1 < b.2.1
      · rw [if_pos hx]
      · rw [if_neg hx]; exact not_lt.mp hx
    · exact ih (olderEntry b x) y hy

theorem oldestEntry_mem (entries : List CacheEntry) (old : CacheEntry)
    (h : oldestEntry entries = some old) : old ∈ entries := by
  match entries with
  | [] => simp [oldestEntry] at h
  | e :: es =>
    simp only [oldestEntry, Option.some_inj] at h
    subst h
    rcases foldl_olderEntry_mem es e with h | h
    · rw [h]; exact List.mem_cons_self e es
    · exact List.mem_cons_of_mem e h

theorem oldestEntry_min (entries : List CacheEntry) (old : CacheEntry)
    (h : oldestEntry entries = some old) :
    ∀ x ∈ entries, old.2.1 ≤ x.2.1 := by
  match entries with
  | [] => simp [oldestEntry] at h
  | e :: es =>
    simp only [oldestEntry, Option.some_inj] at h
    subst h
    intro x hx
    rcases List.mem_cons.mp hx with hx | hx
    · subst hx
      exact foldl_olderEntry_le_acc es x
    · exact foldl_olderEntry_le_mem es e x hx

theorem set_find?_self (c : SearchCache) (key : String) (v : List RedditComment)
    (now : Int) (c' : SearchCache) (hset : SearchCache.set c key v now = some c') :
    c'.entries.find? (fun e => e.1 == key) = some (key, now, v)
      ∧ c'.ttl = c.ttl ∧ c'.maxSize = c.maxSize := by
  unfold SearchCache.set at hset
  by_cases h : c.maxSize ≤ c.entries.length
  · rw [if_pos h] at hset
    match hold : oldestEntry c.entries with
    | none => rw [hold] at hset; exact absurd hset (by simp)
    | some old =>
      rw [hold] at hset
      simp only [Option.some_inj] at hset
      subst hset
      exact ⟨jsMapSet_find?_self _ key now v, rfl, rfl⟩
  · rw [if_neg h] at hset
    simp only [Option.some_inj] at hset
    subst hset
    exact ⟨jsMapSet_find?_self _ key now v, rfl, rfl⟩

theorem set_wf (c : SearchCache) (key : String) (v : List RedditComment)
    (now : Int) (c' : SearchCache) (hwf : CacheKeysWF c)
    (hset : SearchCache.set c key v now = some c') : CacheKeysWF c' := by
  unfold SearchCache.set at hset
  by_cases h : c.maxSize ≤ c.entries.length
  · rw [if_pos h] at hset
    match hold : oldestEntry c.entries with
    | none => rw [hold] at hset; exact absurd hset (by simp)
    | some old =>
      rw [hold] at hset
      simp only [Option.some_inj] at hset
      subst hset
      exact nodup_cacheKeys_jsMapSet _ key now v
        (nodup_cacheKeys_jsMapDelete _ old.1 hwf)
  · rw [if_neg h] at hset
    simp only [Option.some_inj] at hset
    subst hset
    exact nodup_cacheKeys_jsMapSet _ key now v hwf

/-- C5: an entry written at time `t` with time-to-live `ttl` is still
returned by `get` at `t + ttl - 1` and is absent at `t + ttl + 1`, the
expired entry being deleted from the cache by that read. -/
theorem cache_ttl_read_boundary (c c' : SearchCache) (key : String)
    (v : List RedditComment) (t : Int) (hwf : CacheKeysWF c)
    (hset : SearchCache.set c key v t = some c') :
    (c'.get key (t + c.ttl - 1)).1 = some v
      ∧ (c'.get key (t + c.ttl + 1)).1 = none
      ∧ key ∉ cacheKeys ((c'.get key (t + c.ttl + 1)).2.entries) := by
  obtain ⟨hfind, httl, _⟩ := set_find?_self c key v t c' hset
  have hwf' : CacheKeysWF c' := set_wf c key v t c' hwf hset
  have hcond1 : ¬ c'.ttl < (t + c.ttl - 1) - t := by rw [httl]; omega
  have hcond2 : c'.ttl < (t + c.ttl + 1) - t := by rw [httl]; omega
  refine ⟨?_, ?_, ?_⟩
  · unfold SearchCache.get
    rw [hfind]
    simp only [if_neg hcond1]
  · unfold SearchCache.get
    rw [hfind]
    simp only [if_pos hcond2]
  · unfold SearchCache.get
    rw [hfind]
    simp only [if_pos hcond2]
    exact not_mem_cacheKeys_jsMapDelete c'.entries key hwf'

/-- Concrete empty cache used in witness instances (the source constructs
the cache with `maxSize = 100` and `ttl = 5 * 60 * 1000` ms). -/
def cacheEmpty : SearchCache := { maxSize := 100, ttl := 300000, entries := [] }

/-- Cache holding the single entry written by the C5 witness. -/
def cacheOneK : SearchCache := { maxSize := 100, ttl := 300000, entries := [("k", 0, [])] }

/-- Witness for C5: the TTL boundary theorem applied to a concrete write. -/
theorem cache_ttl_read_boundary_witness :
    CacheKeysWF cacheEmpty
      ∧ SearchCache.set cacheEmpty "k" [] 0 = some cacheOneK
      ∧ ((cacheOneK.get "k" (0 + cacheEmpty.ttl - 1)).1 = some []
          ∧ (cacheOneK.get "k" (0 + cacheEmpty.ttl + 1)).1 = none
          ∧ "k" ∉ cacheKeys ((cacheOneK.get "k" (0 + cacheEmpty.ttl + 1)).2.entries)) :=
  ⟨by simp [CacheKeysWF, cacheKeys, cacheEmpty], by rfl,
    cache_ttl_read_boundary cacheEmpty cacheOneK "k" [] 0
      (by simp [CacheKeysWF, cacheKeys, cacheEmpty]) (by rfl)⟩

/-! ### C6: eviction and the size bound -/

/-- An externally invokable cache operation. -/
inductive CacheOp where
  | read (key : String) (now : Int)
  | write (key : String) (results : List RedditComment) (now : Int)

/-- Apply one operation; a `write` propagates the crash (`none`) of
`SearchCache.set` on an at-capacity empty map. -/
def applyCacheOp (c : SearchCache) : CacheOp → Option SearchCache
  | CacheOp.read key now => some (SearchCache.get c key now).2
  | CacheOp.write key results now => SearchCache.set c key results now

/-- Run a sequence of cache operations. -/
def runCacheOps (c : SearchCache) : List CacheOp → Option SearchCache
  | [] => some c
  | op :: ops =>
    match applyCacheOp c op with
    | none => none
    | some c' => runCacheOps c' ops

theorem get_entries_length_le (c : SearchCache) (key : String) (now : Int) :
    (SearchCache.get c key now).2.entries.length ≤ c.entries.length := by
  unfold SearchCache.get
  split
  · exact le_refl _
  · split
    · simpa [jsMapDelete] using
        List.Sublist.length_le (List.eraseP_sublist (p := fun e => e.1 == key) c.entries)
    · exact le_refl _

theorem get_maxSize (c : SearchCache) (key : String) (now : Int) :
    (SearchCache.get c key now).2.maxSize = c.maxSize := by
  unfold SearchCache.get
  split
  · rfl
  · split
    · rfl
    · rfl

theorem oldestEntry_isSome (c : SearchCache) (hne : c.entries ≠ []) :
    ∃ old, oldestEntry c.entries = some old := by
  cases hE : c.entries with
  | nil => exact absurd hE hne
  | cons e es =>
    exact ⟨es.foldl olderEntry e, rfl⟩

theorem oldestEntry_delete_length (c : SearchCache) (old : CacheEntry)
    (hold : oldestEntry c.entries = some old) :
    (jsMapDelete c.entries old.1).length = c.entries.length - 1 := by
  unfold jsMapDelete
  exact List.length_eraseP_of_mem (oldestEntry_mem _ _ hold) (by simp)

theorem set_preserves_bound (c : SearchCache) (key : String)
    (v : List RedditComment) (now : Int) (hmax : 1 ≤ c.maxSize)
    (hlen : c.entries.length ≤ c.maxSize) :
    ∃ c', SearchCache.set c key v now = some c'
      ∧ c'.entries.length ≤ c.maxSize ∧ c'.maxSize = c.maxSize := by
  by_cases h : c.maxSize ≤ c.entries.length
  · have hne : c.entries ≠ [] := by
      intro hnil
      rw [hnil] at h
      simp only [List.length_nil, Nat.le_zero] at h
      omega
    obtain ⟨old, hold⟩ := oldestEntry_isSome c hne
    refine ⟨{ c with entries := jsMapSet (jsMapDelete c.entries old.1) key now v },
      ?_, ?_, rfl⟩
    · unfold SearchCache.set
      rw [if_pos h, hold]
    · show (jsMapSet (jsMapDelete c.entries old.1) key now v).length ≤ c.maxSize
      have hdel := oldestEntry_delete_length c old hold
      have hup := length_jsMapSet (jsMapDelete c.entries old.1) key now v
      omega
  · refine ⟨{ c with entries := jsMapSet c.entries key now v }, ?_, ?_, rfl⟩
    · unfold SearchCache.set
      rw [if_neg h]
    · show (jsMapSet c.entries key now v).length ≤ c.maxSize
      have hup := length_jsMapSet c.entries key now v
      omega

theorem runCacheOps_bound (ops : List CacheOp) (c : SearchCache)
    (hmax : 1 ≤ c.maxSize) (hlen : c.entries.length ≤ c.maxSize) :
    ∃ c', runCacheOps c ops = some c'
      ∧ c'.entries.length ≤ c'.maxSize ∧ c'.maxSize = c.maxSize := by
  induction ops generalizing c with
  | nil => exact ⟨c, rfl, hlen.trans_eq rfl, rfl⟩
  | cons op ops ih =>
    match op with
    | CacheOp.read key now =>
      have h1 := get_entries_length_le c key now
      have h2 := get_maxSize c key now
      obtain ⟨c', hrun, hb, hm⟩ := ih (SearchCache.get c key now).2
        (by omega) (by omega)
      exact ⟨c', by simpa [runCacheOps, applyCacheOp] using hrun, hb, by omega⟩
    | CacheOp.write key v now =>
      obtain ⟨c1, hset, hb1, hm1⟩ := set_preserves_bound c key v now hmax hlen
      obtain ⟨c', hrun, hb, hm⟩ := ih c1 (by omega) (by omega)
      refine ⟨c', ?_, hb, by omega⟩
      simp only [runCacheOps, applyCacheOp, hset]
      exact hrun

/-- C6: (a) a `set` on a cache holding exactly `maxSize` entries deletes
exactly one entry, one whose insertion timestamp is minimal among all stored
entries, before inserting the new entry with the fresh timestamp `now`;
(b) starting from any cache within its bound (and positive capacity), any
sequence of `get`/`set` operations succeeds and never leaves more than
`maxSize` entries in the cache. -/
theorem cache_eviction_and_size_bound :
    (∀ (c : SearchCache) (key : String) (v : List RedditComment) (now : Int),
      c.entries.length = c.maxSize → 1 ≤ c.maxSize →
      ∃ old c', oldestEntry c.entries = some old
        ∧ old ∈ c.entries
        ∧ (∀ x ∈ c.entries, old.2.1 ≤ x.2.1)
        ∧ SearchCache.set c key v now = some c'
        ∧ c'.entries = jsMapSet (jsMapDelete c.entries old.1) key now v
        ∧ (jsMapDelete c.entries old.1).length = c.entries.length - 1
        ∧ c'.entries.length ≤ c.maxSize)
    ∧ (∀ (ops : List CacheOp) (c : SearchCache),
      1 ≤ c.maxSize → c.entries.length ≤ c.maxSize →
      ∃ c', runCacheOps c ops = some c' ∧ c'.entries.length ≤ c'.maxSize) := by
  constructor
  · intro c key v now hlen hmax
    have hne : c.entries ≠ [] := by
      intro hnil
      rw [hnil] at hlen
      simp only [List.length_nil] at hlen
      omega
    obtain ⟨old, hold⟩ := oldestEntry_isSome c hne
    refine ⟨old, { c with entries := jsMapSet (jsMapDelete c.entries old.1) key now v },
      hold, oldestEntry_mem _ _ hold, oldestEntry_min _ _ hold, ?_, rfl, ?_, ?_⟩
    · unfold SearchCache.set
      rw [if_pos (by omega), hold]
    · exact oldestEntry_delete_length c old hold
    · show (jsMapSet (jsMapDelete c.entries old.1) key now v).length ≤ c.maxSize
      have hdel := oldestEntry_delete_length c old hold
      have hup := length_jsMapSet (jsMapDelete c.entries old.1) key now v
      omega
  · intro ops c hmax hlen
    obtain ⟨c', hrun, hb, _⟩ := runCacheOps_bound ops c hmax hlen
    exact ⟨c', hrun, hb⟩

/-- Cache at capacity used by the C6 witness: capacity 1, one entry. -/
def cacheFull : SearchCache := { maxSize := 1, ttl := 300000, entries := [("a", 5, [])] }

/-- Witness for C6: the theorem applied to a concrete cache at capacity and
to a concrete operation sequence. -/
theorem cache_eviction_and_size_bound_witness :
    (cacheFull.entries.length = cacheFull.maxSize ∧ 1 ≤ cacheFull.maxSize
      ∧ ∃ old c', oldestEntry cacheFull.entries = some old
        ∧ old ∈ cacheFull.entries
        ∧ (∀ x ∈ cacheFull.entries, old.2.1 ≤ x.2.1)
        ∧ SearchCache.set cacheFull "b" [] 9 = some c'
        ∧ c'.entries = jsMapSet (jsMapDelete cacheFull.entries old.1) "b" 9 []
        ∧ (jsMapDelete cacheFull.entries old.1).length = cacheFull.entries.length - 1
        ∧ c'.entries.length ≤ cacheFull.maxSize)
    ∧ (1 ≤ cacheFull.maxSize ∧ cacheFull.entries.length ≤ cacheFull.maxSize
      ∧ ∃ c', runCacheOps cacheFull [CacheOp.write "b" [] 9] = some c'
        ∧ c'.entries.length ≤ c'.maxSize) :=
  ⟨⟨rfl, by simp [cacheFull],
      cache_eviction_and_size_bound.1 cacheFull "b" [] 9 rfl (by simp [cacheFull])⟩,
    ⟨by simp [cacheFull], by simp [cacheFull],
      cache_eviction_and_size_bound.2 [CacheOp.write "b" [] 9] cacheFull
        (by simp [cacheFull]) (by simp [cacheFull])⟩⟩

/-! ## The credential manager (`getRedditAccessToken` of the source)

The module-level mutable state `accessToken` / `tokenExpiration` /
`tokenRetryCount` is made explicit as a `TokenState` record, and the outcome
of the one outbound client-credentials exchange an invocation performs is an
explicit `ExchangeOutcome` parameter.  A call returns the resulting value
(token, or the error thrown), the new state, and the backoff delay (ms)
awaited at the start of the call before the exchange. -/

/-- The process-wide token state of the source. -/
structure TokenState where
  accessToken : Option String
  tokenExpiration : Int
  tokenRetryCount : Nat

/-- Outcome of the client-credentials exchange: the token endpoint either
returns a token with `expires_in` (seconds), or the request fails. -/
inductive ExchangeOutcome where
  | success (tok : String) (expiresIn : Int)
  | failure

/-- What a `getRedditAccessToken` call produces: the still-valid cached
token, a freshly obtained token, the transient auth error thrown while the
retry counter is within bounds, or the terminal exhausted-auth error. -/
inductive TokenResult where
  | cached (tok : Option String)
  | fresh (tok : String)
  | transientError
  | terminalError
deriving DecidableEq

/-- The guard `accessToken && Date.now() < tokenExpiration` (a JavaScript
empty string is falsy). -/
def tokenValid (s : TokenState) (now : Int) : Bool :=
  (match s.accessToken with
   | some t => t ≠ ""
   | none => false) && decide (now < s.tokenExpiration)

/-- One call to `getRedditAccessToken`: return the cached token if still
valid; otherwise wait `tokenRetryCount == 0 ? 0 : min(1000 * 2^count,
30000)` ms, perform the exchange, and on success store the token with a
60-second safety margin and reset the counter, while on failure increment
the counter, then either fail terminally resetting the counter to 0 (when
the incremented counter exceeds 3) or clear the token and fail
transiently. -/
def getRedditAccessToken (s : TokenState) (now : Int)
    (exchange : ExchangeOutcome) : TokenResult × TokenState × Int :=
  if tokenValid s now then
    (TokenResult.cached s.accessToken, s, 0)
  else
    let backoffTime : Int :=
      if s.tokenRetryCount = 0 then 0 else min (1000 * 2 ^ s.tokenRetryCount) 30000
    match exchange with
    | ExchangeOutcome.success tok expiresIn =>
      (TokenResult.fresh tok,
        { accessToken := some tok,
          tokenExpiration := now + expiresIn * 1000 - 60000,
          tokenRetryCount := 0 },
        backoffTime)
    | ExchangeOutcome.failure =>
      let next := s.tokenRetryCount + 1
      if 3 < next then
        (TokenResult.terminalError, { s with tokenRetryCount := 0 }, backoffTime)
      else
        (TokenResult.transientError,
          { accessToken := none, tokenExpiration := 0, tokenRetryCount := next },
          backoffTime)

/-- A refresh attempt whose exchange fails. -/
def failedAttempt (s : TokenState) (now : Int) : TokenResult × TokenState × Int :=
  getRedditAccessToken s now ExchangeOutcome.failure

/-- State after `n` consecutive failing refresh attempts. -/
def failEpisode (s : TokenState) (now : Int) : Nat → TokenState
  | 0 => s
  | n + 1 => (failedAttempt (failEpisode s now n) now).2.1

/-- C3: on a failed exchange the counter increments and the call fails
transiently while the incremented counter stays within 3, the backoff
`min(1000 * 2^counter, 30000)` being applied at the start of the next
attempt (the first attempt of an episode waits 0 ms); once the counter
exceeds 3 the call fails terminally and the counter resets to 0.  A fresh
failure episode therefore makes exactly 3 transiently failing refresh
attempts (with backoffs 0, 2000 and 4000 ms) before the fourth attempt
(after an 8000 ms backoff) fails terminally with the counter back at 0. -/
theorem token_refresh_episode :
    (∀ (s : TokenState) (now : Int), tokenValid s now = false →
      ((failedAttempt s now).1 = TokenResult.terminalError ↔ 3 ≤ s.tokenRetryCount)
      ∧ (failedAttempt s now).2.1.tokenRetryCount
          = (if 3 ≤ s.tokenRetryCount then 0 else s.tokenRetryCount + 1)
      ∧ (failedAttempt s now).2.2
          = (if s.tokenRetryCount = 0 then 0
             else min (1000 * 2 ^ s.tokenRetryCount) 30000))
    ∧ (∀ (s : TokenState) (now : Int),
      tokenValid s now = false → s.tokenRetryCount = 0 →
      (failedAttempt s now).1 = TokenResult.transientError
      ∧ (failedAttempt s now).2.2 = 0
      ∧ (failEpisode s now 1).tokenRetryCount = 1
      ∧ (failedAttempt (failEpisode s now 1) now).1 = TokenResult.transientError
      ∧ (failedAttempt (failEpisode s now 1) now).2.2 = 2000
      ∧ (failEpisode s now 2).tokenRetryCount = 2
      ∧ (failedAttempt (failEpisode s now 2) now).1 = TokenResult.transientError
      ∧ (failedAttempt (failEpisode s now 2) now).2.2 = 4000
      ∧ (failEpisode s now 3).tokenRetryCount = 3
      ∧ (failedAttempt (failEpisode s now 3) now).1 = TokenResult.terminalError
      ∧ (failedAttempt (failEpisode s now 3) now).2.2 = 8000
      ∧ (failEpisode s now 4).tokenRetryCount = 0) := by
  constructor
  · intro s now hvalid
    unfold failedAttempt getRedditAccessToken
    rw [hvalid]
    simp only [Bool.false_eq_true, if_false]
    by_cases h3 : 3 < s.tokenRetryCount + 1
    · have h3' : 3 ≤ s.tokenRetryCount := by omega
      rw [if_pos h3]
      exact ⟨by simp [h3'], by simp [h3'], rfl⟩
    · have h3' : ¬ 3 ≤ s.tokenRetryCount := by omega
      rw [if_neg h3]
      exact ⟨by simp [h3'], by simp [h3'], rfl⟩
  · intro s now hvalid hcount
    have step1 : failEpisode s now 1
        = { accessToken := none, tokenExpiration := 0, tokenRetryCount := 1 } := by
      unfold failEpisode failEpisode failedAttempt getRedditAccessToken
      rw [hvalid]
      simp [hcount]
    have r1 : (failedAttempt s now).1 = TokenResult.transientError
        ∧ (failedAttempt s now).2.2 = 0 := by
      unfold failedAttempt getRedditAccessToken
      rw [hvalid]
      simp [hcount]
    have step2 : failEpisode s now 2
        = { accessToken := none, tokenExpiration := 0, tokenRetryCount := 2 } := by
      unfold failEpisode
      rw [step1]
      unfold failedAttempt getRedditAccessToken tokenValid
      norm_num
    have step3 : failEpisode s now 3
        = { accessToken := none, tokenExpiration := 0, tokenRetryCount := 3 } := by
      unfold failEpisode
      rw [step2]
      unfold failedAttempt getRedditAccessToken tokenValid
      norm_num
    have step4 : failEpisode s now 4
        = { accessToken := none, tokenExpiration := 0, tokenRetryCount := 0 } := by
      unfold failEpisode
      rw [step3]
      unfold failedAttempt getRedditAccessToken tokenValid
      norm_num
    refine ⟨r1.1, r1.2, by rw [step1], ?_, ?_, by rw [step2], ?_, ?_, by rw [step3],
      ?_, ?_, by rw [step4]⟩
    · rw [step1]
      unfold failedAttempt getRedditAccessToken tokenValid
      norm_num
    · rw [step1]
      unfold failedAttempt getRedditAccessToken tokenValid
      norm_num
    · rw [step2]
      unfold failedAttempt getRedditAccessToken tokenValid
      norm_num
    · rw [step2]
      unfold failedAttempt getRedditAccessToken tokenValid
      norm_num
    · rw [step3]
      unfold failedAttempt getRedditAccessToken tokenValid
      norm_num
    · rw [step3]
      unfold failedAttempt getRedditAccessToken tokenValid
      norm_num

/-- Witness for C3: the episode theorem at the initial token state. -/
theorem token_refresh_episode_witness :
    (tokenValid { accessToken := none, tokenExpiration := 0, tokenRetryCount := 0 } 0 = false
      ∧ ((failedAttempt { accessToken := none, tokenExpiration := 0, tokenRetryCount := 0 } 0).1
            = TokenResult.terminalError
          ↔ 3 ≤ (TokenState.mk none 0 0).tokenRetryCount))
    ∧ (failedAttempt { accessToken := none, tokenExpiration := 0, tokenRetryCount := 0 } 0).1
        = TokenResult.transientError
    ∧ (failEpisode { accessToken := none, tokenExpiration := 0, tokenRetryCount := 0 } 0 4).tokenRetryCount = 0 :=
  ⟨⟨rfl, (token_refresh_episode.1 { accessToken := none, tokenExpiration := 0, tokenRetryCount := 0 } 0 rfl).1⟩,
    (token_refresh_episode.2 { accessToken := none, tokenExpiration := 0, tokenRetryCount := 0 } 0 rfl rfl).1,
    ((token_refresh_episode.2 { accessToken := none, tokenExpiration := 0, tokenRetryCount := 0 } 0 rfl rfl).2.2.2.2.2.2.2.2.2.2.2)⟩

/-! ## The rate-limited client (`redditApiRequest` of the source)

A call either yields response data, or an HTTP error with a status code
(an axios error carrying a response), or a network-level failure (any other
thrown error, including a token-refresh failure propagating out of
`getRedditAccessToken`, which the `catch` of the source re-throws
unretried because it carries no HTTP response).  The outcome of the
`attempt`-th outbound call is given by an oracle.  The model returns the
result together with the trace of outbound calls and backoff delays; the
interaction of the 401 branch with the shared token state is not needed by
any claim and is elided. -/

/-- Outcome of one outbound authenticated GET. -/
inductive ApiOutcome where
  | ok (data : Nat)
  | httpError (status : Nat)
  | netError

/-- Errors `redditApiRequest` can throw. -/
inductive ApiError where
  | rateLimited
  | httpFail (status : Nat)
  | netFail
deriving DecidableEq

/-- Trace events: an outbound call with its attempt number, or an awaited
delay in milliseconds. -/
inductive ReqEvent where
  | call (attempt : Nat)
  | wait (ms : Nat)
deriving DecidableEq

/-- `redditApiRequest(url, attempt)` with `maxAttempts = 3`: on HTTP 429
with `attempt < 3`, wait `2^attempt * 1000` ms and retry with `attempt + 1`;
on HTTP 429 otherwise, throw the rate-limited error; on HTTP 401 with
`attempt < 3`, clear the token and retry immediately; any other failure
propagates unretried. -/
def redditApiRequest (oracle : Nat → ApiOutcome) (attempt : Nat) :
    Except ApiError Nat × List ReqEvent :=
  match oracle attempt with
  | ApiOutcome.ok data => (Except.ok data, [ReqEvent.call attempt])
  | ApiOutcome.netError => (Except.error ApiError.netFail, [ReqEvent.call attempt])
  | ApiOutcome.httpError status =>
    if status = 429 then
      if h : attempt < 3 then
        let r := redditApiRequest oracle (attempt + 1)
        (r.1, ReqEvent.call attempt :: ReqEvent.wait (2 ^ attempt * 1000) :: r.2)
      else
        (Except.error ApiError.rateLimited, [ReqEvent.call attempt])
    else if status = 401 then
      if h : attempt < 3 then
        let r := redditApiRequest oracle (attempt + 1)
        (r.1, ReqEvent.call attempt :: r.2)
      else
        (Except.error (ApiError.httpFail status), [ReqEvent.call attempt])
    else
      (Except.error (ApiError.httpFail status), [ReqEvent.call attempt])
termination_by 3 - attempt
decreasing_by
  · omega
  · omega

/-- Number of outbound calls recorded in a trace. -/
def countApiCalls (events : List ReqEvent) : Nat :=
  events.countP (fun e =>
    match e with
    | ReqEvent.call _ => true
    | ReqEvent.wait _ => false)

theorem countApiCalls_bound (oracle : Nat → ApiOutcome) :
    ∀ (k a : Nat), 3 - a ≤ k → countApiCalls (redditApiRequest oracle a).2 ≤ k + 1 := by
  intro k
  induction k with
  | zero =>
    intro a ha
    have h3 : ¬ a < 3 := by omega
    unfold redditApiRequest
    match oracle a with
    | ApiOutcome.ok data => simp [countApiCalls]
    | ApiOutcome.netError => simp [countApiCalls]
    | ApiOutcome.httpError status =>
      dsimp only
      by_cases h429 : status = 429
      · rw [if_pos h429, dif_neg h3]
        simp [countApiCalls]
      · rw [if_neg h429]
        by_cases h401 : status = 401
        · rw [if_pos h401, dif_neg h3]
          simp [countApiCalls]
        · rw [if_neg h401]
          simp [countApiCalls]
  | succ k ih =>
    intro a ha
    unfold redditApiRequest
    match oracle a with
    | ApiOutcome.ok data => simp [countApiCalls]
    | ApiOutcome.netError => simp [countApiCalls]
    | ApiOutcome.httpError status =>
      dsimp only
      by_cases h429 : status = 429
      · rw [if_pos h429]
        by_cases h3 : a < 3
        · rw [dif_pos h3]
          have := ih (a + 1) (by omega)
          simp [countApiCalls, List.countP_cons] at this ⊢
          omega
        · rw [dif_neg h3]
          simp [countApiCalls]
      · rw [if_neg h429]
        by_cases h401 : status = 401
        · rw [if_pos h401]
          by_cases h3 : a < 3
          · rw [dif_pos h3]
            have := ih (a + 1) (by omega)
            simp [countApiCalls, List.countP_cons] at this ⊢
            omega
          · rw [dif_neg h3]
            simp [countApiCalls]
        · rw [if_neg h401]
          simp [countApiCalls]

/-- C9: a `redditApiRequest` started at attempt 1 performs at most 3
outbound calls; a 429 response on an attempt below the maximum is followed
by a `2^attempt * 1000` ms wait and a retry with the attempt counter
incremented; a 429 response with no attempts remaining throws the
rate-limited error after exactly the one outbound call of that attempt. -/
theorem rate_limited_request_retries (oracle : Nat → ApiOutcome) :
    countApiCalls (redditApiRequest oracle 1).2 ≤ 3
    ∧ (∀ a, a < 3 → oracle a = ApiOutcome.httpError 429 →
        redditApiRequest oracle a
          = ((redditApiRequest oracle (a + 1)).1,
             ReqEvent.call a :: ReqEvent.wait (2 ^ a * 1000)
               :: (redditApiRequest oracle (a + 1)).2))
    ∧ (∀ a, 3 ≤ a → oracle a = ApiOutcome.httpError 429 →
        redditApiRequest oracle a
          = (Except.error ApiError.rateLimited, [ReqEvent.call a])) := by
  refine ⟨by simpa using countApiCalls_bound oracle 2 1 (by omega), ?_, ?_⟩
  · intro a h3 h429
    conv_lhs => rw [redditApiRequest.eq_def]
    rw [h429]
    dsimp only
    rw [if_pos rfl, dif_pos h3]
  · intro a h3 h429
    conv_lhs => rw [redditApiRequest.eq_def]
    rw [h429]
    dsimp only
    rw [if_pos rfl, dif_neg (by omega)]

/-- The oracle on which every outbound call is answered with HTTP 429. -/
def always429 : Nat → ApiOutcome := fun _ => ApiOutcome.httpError 429

/-- Witness for C9: the retry theorem applied at the all-429 oracle, at a
retryable attempt and at the final attempt. -/
theorem rate_limited_request_retries_witness :
    countApiCalls (redditApiRequest always429 1).2 ≤ 3
    ∧ (1 < 3 ∧ always429 1 = ApiOutcome.httpError 429
      ∧ redditApiRequest always429 1
          = ((redditApiRequest always429 2).1,
             ReqEvent.call 1 :: ReqEvent.wait (2 ^ 1 * 1000)
               :: (redditApiRequest always429 2).2))
    ∧ (3 ≤ 3 ∧ always429 3 = ApiOutcome.httpError 429
      ∧ redditApiRequest always429 3
          = (Except.error ApiError.rateLimited, [ReqEvent.call 3])) :=
  ⟨(rate_limited_request_retries always429).1,
    ⟨by omega, rfl, (rate_limited_request_retries always429).2.1 1 (by omega) rfl⟩,
    ⟨by omega, rfl, (rate_limited_request_retries always429).2.2 3 (by omega) rfl⟩⟩

/-! ## String utilities

JavaScript string operations are modelled on `List Char`;
`String.prototype.toLowerCase` becomes a character-wise `Char.toLower`
(faithful on the ASCII strings involved). -/

/-- `s.toLowerCase()`. -/
def toLowerStr (s : String) : String := String.mk (s.data.map Char.toLower)

/-- Leading and trailing whitespace of a character list removed. -/
def trimChars (l : List Char) : List Char :=
  ((l.dropWhile Char.isWhitespace).reverse.dropWhile Char.isWhitespace).reverse

/-- `s.trim()`. -/
def jsTrim (s : String) : String := String.mk (trimChars s.data)

/-- Split a character list at whitespace characters (empty pieces appear at
consecutive separators and are filtered away by the callers, matching
`split(/\s+/)` followed by the non-empty filter). -/
def splitPiecesAux (cur : List Char) : List Char → List (List Char)
  | [] => [cur.reverse]
  | ch :: rest =>
    if ch.isWhitespace then cur.reverse :: splitPiecesAux [] rest
    else splitPiecesAux (ch :: cur) rest

/-- A JavaScript `\w` word character: `[A-Za-z0-9_]`. -/
def isWordChar (ch : Char) : Bool := ch.isAlphanum || ch = '_'

/-- No word boundary is crossed coming from `prev` (the character left of
the match position, absent at the start of the string). -/
def boundaryLeft (prev : Option Char) : Bool :=
  match prev with
  | none => true
  | some p => ! isWordChar p

/-- The character following the match (if any) is not a word character. -/
def boundaryRight (rest : List Char) : Bool :=
  match rest with
  | [] => true
  | c :: _ => ! isWordChar c

/-- Does `kw` occur in the text somewhere between word boundaries?  `prev`
is the character immediately before the current scan position. -/
def wordMatchAux (kw : List Char) (prev : Option Char) : List Char → Bool
  | [] => false
  | c :: rest =>
    (boundaryLeft prev && kw.isPrefixOf (c :: rest)
        && boundaryRight ((c :: rest).drop kw.length))
      || wordMatchAux kw (some c) rest

/-- `/\b(kw1|kw2|...)\b/.test(text)`: some keyword occurs between word
boundaries. -/
def testWordAlternatives (kws : List String) (text : List Char) : Bool :=
  kws.any (fun kw => wordMatchAux kw.data none text)

/-! ## The tree extractor (`extractComments` of the source) -/

/-- A node of the raw nested reply tree: the `kind` discriminator, whether a
`data` payload is present, the payload fields used by the extractor, and the
children found at `data.replies.data.children` (empty when absent).  When
`hasData` is false the replies are unreachable (`item.data?.replies` is
`undefined`) and the extractor ignores them. -/
inductive RNode where
  | mk (kind : String) (hasData : Bool) (body : String) (author : String)
      (cid : String) (ups : Int) (createdUtc : Int) (awards : Int)
      (replies : List RNode)

/-- The keyword list of the positive-sentiment regex. -/
def positiveWords : List String :=
  ["great", "good", "love", "awesome", "excellent", "amazing", "best",
   "nice", "perfect", "happy"]

/-- The keyword list of the negative-sentiment regex. -/
def negativeWords : List String :=
  ["bad", "awful", "hate", "terrible", "worst", "sucks", "horrible",
   "poor", "sad", "angry"]

/-- Keyword-based sentiment assignment over the lower-cased body, positive
winning over negative, defaulting to neutral. -/
def classifySentiment (body : String) : Sentiment :=
  let text := (toLowerStr body).data
  if testWordAlternatives positiveWords text then Sentiment.positive
  else if testWordAlternatives negativeWords text then Sentiment.negative
  else Sentiment.neutral

/-- The normalized `RedditComment` built from a surviving tree node:
an empty (falsy) author is replaced by the deletion sentinel, the timestamp
is `created_utc` seconds scaled to milliseconds (the ISO-8601 conversion),
the permalink is synthesized from channel, post and comment ids. -/
def buildComment (subreddit postId : String) (body author cid : String)
    (ups createdUtc awards : Int) : RedditComment :=
  { id := cid,
    author := if author = "" then "[deleted]" else author,
    body := body,
    subreddit := subreddit,
    upvotes := ups,
    timestamp := createdUtc * 1000,
    permalink := some ("/r/" ++ subreddit ++ "/comments/" ++ postId ++ "/" ++ cid),
    awards := some awards,
    sentiment := some (classifySentiment body) }

/-- The recursive worker `processComments(data, depth)`: nothing is
extracted once `depth > 10`; a `t1` node with a payload contributes its
normalized comment unless its body or author carries a deletion sentinel
(in which case the `continue` also skips its replies); replies are then
walked at `depth + 1`; non-`t1` nodes still have their replies walked. -/
def processComments (subreddit postId : String) (l : List RNode) (depth : Nat) :
    List RedditComment :=
  if 10 < depth then []
  else
    match l with
    | [] => []
    | RNode.mk kind hasData body author cid ups created awards replies :: rest =>
      (if kind = "t1" ∧ hasData then
        (if body = "[deleted]" ∨ body = "[removed]" ∨ author = "[deleted]" then []
         else buildComment subreddit postId body author cid ups created awards
            :: (if hasData then processComments subreddit postId replies (depth + 1) else []))
       else (if hasData then processComments subreddit postId replies (depth + 1) else []))
      ++ processComments subreddit postId rest depth
termination_by sizeOf l
decreasing_by
  all_goals simp_wf
  all_goals omega

/-- `extractComments(commentData, subreddit, postId)`: run the worker from
depth 0. -/
def extractComments (commentData : List RNode) (subreddit postId : String) :
    List RedditComment :=
  processComments subreddit postId commentData 0

/-- Truncation of a reply forest at nesting level `d`: nodes more than `d`
levels below the top are removed. -/
def truncateBeyond : Nat → List RNode → List RNode
  | _, [] => []
  | 0, RNode.mk kind hasData body author cid ups created awards _ :: rest =>
    RNode.mk kind hasData body author cid ups created awards []
      :: truncateBeyond 0 rest
  | d + 1, RNode.mk kind hasData body author cid ups created awards replies :: rest =>
    RNode.mk kind hasData body author cid ups created awards (truncateBeyond d replies)
      :: truncateBeyond (d + 1) rest
termination_by _ l => sizeOf l
decreasing_by
  all_goals simp_wf
  all_goals omega

theorem processComments_deep (subreddit postId : String) (l : List RNode)
    (d : Nat) (h : 10 < d) : processComments subreddit postId l d = [] := by
  conv_lhs => rw [processComments.eq_def]
  rw [if_pos h]

theorem processComments_nil (subreddit postId : String) (d : Nat) :
    processComments subreddit postId [] d = [] := by
  conv_lhs => rw [processComments.eq_def]
  by_cases h : 10 < d
  · rw [if_pos h]
  · rw [if_neg h]

theorem processComments_cons (subreddit postId : String)
    (kind : String) (hasData : Bool) (body author cid : String)
    (ups created awards : Int) (replies rest : List RNode) (d : Nat)
    (h : ¬ 10 < d) :
    processComments subreddit postId
        (RNode.mk kind hasData body author cid ups created awards replies :: rest) d
      = (if kind = "t1" ∧ hasData then
          (if body = "[deleted]" ∨ body = "[removed]" ∨ author = "[deleted]" then []
           else buildComment subreddit postId body author cid ups created awards
              :: (if hasData then processComments subreddit postId replies (d + 1) else []))
         else (if hasData then processComments subreddit postId replies (d + 1) else []))
        ++ processComments subreddit postId rest d := by
  conv_lhs => rw [processComments.eq_def]
  rw [if_neg h]

theorem truncateBeyond_nil (k : Nat) : truncateBeyond k [] = [] := by
  conv_lhs => rw [truncateBeyond.eq_def]
  match k with
  | 0 => rfl
  | k + 1 => rfl

theorem truncateBeyond_zero_cons (kind : String) (hasData : Bool)
    (body author cid : String) (ups created awards : Int)
    (replies rest : List RNode) :
    truncateBeyond 0
        (RNode.mk kind hasData body author cid ups created awards replies :: rest)
      = RNode.mk kind hasData body author cid ups created awards []
          :: truncateBeyond 0 rest := by
  conv_lhs => rw [truncateBeyond.eq_def]

theorem truncateBeyond_succ_cons (k : Nat) (kind : String) (hasData : Bool)
    (body author cid : String) (ups created awards : Int)
    (replies rest : List RNode) :
    truncateBeyond (k + 1)
        (RNode.mk kind hasData body author cid ups created awards replies :: rest)
      = RNode.mk kind hasData body author cid ups created awards
            (truncateBeyond k replies)
          :: truncateBeyond (k + 1) rest := by
  conv_lhs => rw [truncateBeyond.eq_def]

theorem processComments_truncate (subreddit postId : String) :
    ∀ (n : Nat) (l : List RNode), sizeOf l ≤ n → ∀ (d : Nat), d ≤ 10 →
      processComments subreddit postId l d
        = processComments subreddit postId (truncateBeyond (10 - d) l) d := by
  intro n
  induction n with
  | zero =>
    intro l hl d hd
    match l with
    | [] => rw [truncateBeyond_nil]
    | node :: rest =>
      exact absurd hl (by simp)
  | succ n ih =>
    intro l hl d hd
    match l with
    | [] => rw [truncateBeyond_nil]
    | RNode.mk kind hasData body author cid ups created awards replies :: rest =>
      have hnd : ¬ 10 < d := by omega
      have hsz : sizeOf (RNode.mk kind hasData body author cid ups created awards replies) + sizeOf rest ≤ n + 2 := by
        have := hl
        simp only [List.cons.sizeOf_spec] at this
        omega
      have hszr : sizeOf replies ≤ n := by
        have := hl
        simp only [List.cons.sizeOf_spec, RNode.mk.sizeOf_spec] at this
        omega
      have hszrest : sizeOf rest ≤ n := by
        have := hl
        simp only [List.cons.sizeOf_spec] at this
        have hpos : 1 ≤ sizeOf (RNode.mk kind hasData body author cid ups created awards replies) := by
          simp [RNode.mk.sizeOf_spec]
          omega
        omega
      by_cases hd10 : d = 10
      · subst hd10
        have h0 : 10 - 10 = 0 := by omega
        rw [h0, truncateBeyond_zero_cons, processComments_cons _ _ _ _ _ _ _ _ _ _ _ _ _ hnd,
          processComments_cons _ _ _ _ _ _ _ _ _ _ _ _ _ hnd]
        rw [processComments_deep subreddit postId replies 11 (by omega),
          processComments_deep subreddit postId ([] : List RNode) 11 (by omega)]
        rw [ih rest hszrest 10 (by omega), h0]
      · have hdlt : d < 10 := by omega
        have h1 : 10 - d = (10 - (d + 1)) + 1 := by omega
        rw [h1, truncateBeyond_succ_cons, processComments_cons _ _ _ _ _ _ _ _ _ _ _ _ _ hnd,
          processComments_cons _ _ _ _ _ _ _ _ _ _ _ _ _ hnd]
        rw [← ih replies hszr (d + 1) (by omega)]
        rw [← h1, ← ih rest hszrest d (by omega)]

/-- C4: the tree extractor is a total function (the embedding is a
terminating definition) and its output on any reply forest coincides with
its output on the same forest truncated at the recursion-depth cap of 10:
nodes nested beyond the cap — in particular everything below level 10 of a
depth-50 synthetic tree — are silently dropped and contribute no
comments. -/
theorem extractComments_depth_cap (commentData : List RNode)
    (subreddit postId : String) :
    extractComments commentData subreddit postId
      = extractComments (truncateBeyond 10 commentData) subreddit postId := by
  unfold extractComments
  have := processComments_truncate subreddit postId (sizeOf commentData)
    commentData (le_refl _) 0 (by omega)
  simpa using this

/-! ## The scoring engine

`Math.log10 x` is modelled as `Real.logb 10 x`.  `Date.now()` is the
explicit `now` parameter (epoch ms); the `new Date(timestamp).getTime()`
round trip through the ISO string is the identity on the modelled
epoch-millisecond timestamp. -/

/-- `calculateRecencyScore`: comments younger than 24 hours get a bonus of
`5 * (1 - ageHours / 24)`. -/
noncomputable def calculateRecencyScore (now : Int) (timestamp : Int) : Real :=
  let ageInHours : Real := ((now : Real) - (timestamp : Real)) / (1000 * 60 * 60)
  if ageInHours < 24 then 5 * (1 - ageInHours / 24) else 0

/-- `calculateBaseScore`: `log10(upvotes+1)*2 + log10((awards||0)+1)*3 +
recency`. -/
noncomputable def calculateBaseScore (now : Int) (c : RedditComment) : Real :=
  Real.logb 10 ((c.upvotes : Real) + 1) * 2
    + Real.logb 10 ((c.awards.getD 0 : Real) + 1) * 3
    + calculateRecencyScore now c.timestamp

/-- `calculateScore`: base score plus `log10(matchCount+1)*5`. -/
noncomputable def calculateScore (now : Int) (c : RedditComment)
    (matchCount : Nat) : Real :=
  calculateBaseScore now c + Real.logb 10 ((matchCount : Real) + 1) * 5

/-- C7: with everything else fixed (same wall-clock time, same match
count, all other fields unchanged), raising the upvote count never lowers
the base score or the total score, and likewise for the award count.
The nonnegativity hypotheses keep the model inside the domain on which
`Math.log10` returns a real number. -/
theorem score_monotone_in_popularity (now : Int) (c : RedditComment)
    (u a : Int) (m : Nat) :
    (0 ≤ c.upvotes → c.upvotes ≤ u →
      calculateBaseScore now c ≤ calculateBaseScore now { c with upvotes := u }
      ∧ calculateScore now c m ≤ calculateScore now { c with upvotes := u } m)
    ∧ (0 ≤ c.awards.getD 0 → c.awards.getD 0 ≤ a →
      calculateBaseScore now c ≤ calculateBaseScore now { c with awards := some a }
      ∧ calculateScore now c m ≤ calculateScore now { c with awards := some a } m) := by
  constructor
  · intro h0 h1
    have h0' : (0 : Real) ≤ (c.upvotes : Real) := by exact_mod_cast h0
    have h1' : (c.upvotes : Real) ≤ (u : Real) := by exact_mod_cast h1
    have hlog : Real.logb 10 ((c.upvotes : Real) + 1)
        ≤ Real.logb 10 ((u : Real) + 1) :=
      Real.logb_le_logb_of_le (by norm_num) (by linarith) (by linarith)
    have hbase : calculateBaseScore now c
        ≤ calculateBaseScore now { c with upvotes := u } := by
      unfold calculateBaseScore
      dsimp only
      linarith
    exact ⟨hbase, by unfold calculateScore; linarith⟩
  · intro h0 h1
    have h0' : (0 : Real) ≤ (c.awards.getD 0 : Real) := by exact_mod_cast h0
    have h1' : (c.awards.getD 0 : Real) ≤ (a : Real) := by exact_mod_cast h1
    have hlog : Real.logb 10 ((c.awards.getD 0 : Real) + 1)
        ≤ Real.logb 10 ((a : Real) + 1) :=
      Real.logb_le_logb_of_le (by norm_num) (by linarith) (by linarith)
    have hbase : calculateBaseScore now c
        ≤ calculateBaseScore now { c with awards := some a } := by
      unfold calculateBaseScore
      dsimp only
      simp only [Option.getD_some]
      linarith
    exact ⟨hbase, by unfold calculateScore; linarith⟩

/-- Concrete comment used by the C7 witness. -/
def commentW : RedditComment :=
  { id := "w1", author := "alice", body := "sample body", subreddit := "programming",
    upvotes := 3, timestamp := 0, awards := some 1 }

/-- Witness for C7: the monotonicity theorem applied at a concrete comment,
raising upvotes from 3 to 5 and awards from 1 to 4. -/
theorem score_monotone_in_popularity_witness :
    (0 ≤ commentW.upvotes ∧ commentW.upvotes ≤ 5
      ∧ (calculateBaseScore 0 commentW
            ≤ calculateBaseScore 0 { commentW with upvotes := 5 }
        ∧ calculateScore 0 commentW 2
            ≤ calculateScore 0 { commentW with upvotes := 5 } 2))
    ∧ (0 ≤ commentW.awards.getD 0 ∧ commentW.awards.getD 0 ≤ 4
      ∧ (calculateBaseScore 0 commentW
            ≤ calculateBaseScore 0 { commentW with awards := some 4 }
        ∧ calculateScore 0 commentW 2
            ≤ calculateScore 0 { commentW with awards := some 4 } 2)) :=
  ⟨⟨by decide, by decide,
      (score_monotone_in_popularity 0 commentW 5 4 2).1 (by decide) (by decide)⟩,
    ⟨by decide, by decide,
      (score_monotone_in_popularity 0 commentW 5 4 2).2 (by decide) (by decide)⟩⟩

/-! ## Text matching

The search regexes of the source are `new RegExp(escapeRegex(term), 'gi')`:
global, case-insensitive literal matches.  `body.match(re)` counts
non-overlapping occurrences left to right; a global regex carries a
`lastIndex` cursor, so the `re.test(author)` / `re.test(subreddit)` pair in
the `all` branch is position-dependent: `body.match` leaves `lastIndex` at
0, a successful `test` on the author leaves it at the end of that match and
the subreddit test then scans from there, while a failed test resets it
to 0. -/

/-- Scan for the first occurrence of `pat` in `suffix`; `pos` is the index
of the head of `suffix` in the full text.  Returns the index one past the
end of the match (the updated `lastIndex`). -/
def firstOccEndAux (pat : List Char) (suffix : List Char) (pos : Nat) : Option Nat :=
  if pat.isPrefixOf suffix then some (pos + pat.length)
  else
    match suffix with
    | [] => none
    | _ :: rest => firstOccEndAux pat rest (pos + 1)

/-- First occurrence of `pat` in `text` at an index ≥ `start` (a regex
`exec` starting at `lastIndex = start`), as the end index of the match. -/
def firstOccEndFrom (pat text : List Char) (start : Nat) : Option Nat :=
  if start ≤ text.length then firstOccEndAux pat (text.drop start) start else none

/-- `text.includes(pat)`. -/
def containsSub (pat text : List Char) : Bool :=
  (firstOccEndFrom pat text 0).isSome

/-- Worker for `countOccs`: count non-overlapping occurrences, resuming
after the end of each match.  On a match at the current position the scan
consumes the head and then skips the remaining `pat.length - 1` matched
characters via the `skip` counter (structural recursion on the text). -/
def countOccsAux (pat : List Char) (skip : Nat) : List Char → Nat
  | [] => 0
  | c :: rest =>
    match skip with
    | s + 1 => countOccsAux pat s rest
    | 0 =>
      if pat.isPrefixOf (c :: rest) then 1 + countOccsAux pat (pat.length - 1) rest
      else countOccsAux pat 0 rest

/-- Number of matches `body.match(re)` finds for a global literal regex
(the empty pattern never arises: search terms are filtered to be
non-empty). -/
def countOccs (pat text : List Char) : Nat :=
  if pat.isEmpty then 0 else countOccsAux pat 0 text

/-- The `+2` / `+3` contributions of `re.test(authorText)` followed by
`re.test(subredditText)` for one shared global regex, including the
`lastIndex` carry-over from a successful author test into the subreddit
test. -/
def authorSubredditScore (term author subreddit : List Char) : Nat :=
  match firstOccEndFrom term author 0 with
  | some endPos => 2 + (if (firstOccEndFrom term subreddit endPos).isSome then 3 else 0)
  | none => if (firstOccEndFrom term subreddit 0).isSome then 3 else 0

/-- Per-term match contribution of the `all` branch: occurrence count in
the body plus the author/subreddit test bonuses. -/
def termMatchCount (term : String) (c : RedditComment) : Nat :=
  countOccs ((toLowerStr term).data) ((toLowerStr c.body).data)
    + authorSubredditScore ((toLowerStr term).data) ((toLowerStr c.author).data)
        ((toLowerStr c.subreddit).data)

/-- The final match count of the `all` branch: the flat exact-phrase bonus
(`+10` when the raw, untrimmed query has length > 3 and its lower-casing
occurs in the lower-cased body) plus the per-term contributions. -/
def allMatchCount (query : String) (terms : List String) (c : RedditComment) : Nat :=
  (if 3 < query.length
      ∧ containsSub ((toLowerStr query).data) ((toLowerStr c.body).data)
   then 10 else 0)
    + (terms.map (fun t => termMatchCount t c)).sum

/-- The match count of the `keyword` branch: body occurrences only. -/
def keywordMatchCount (terms : List String) (body : String) : Nat :=
  (terms.map (fun t => countOccs ((toLowerStr t).data) ((toLowerStr body).data))).sum

/-! ## Stable sort and the final duplicate filter -/

/-- Stable insertion of `x` (an element originally before the already
sorted elements) in front of the first element it need not follow. -/
def insertSorted {α : Type} (le : α → α → Bool) (x : α) : List α → List α
  | [] => [x]
  | y :: ys => if le x y then x :: y :: ys else y :: insertSorted le x ys

/-- `Array.prototype.sort` with comparator `cmp`, modelled as stable
insertion sort over the relation `le a b = (cmp(a, b) ≤ 0)`. -/
def jsStableSort {α : Type} (le : α → α → Bool) : List α → List α
  | [] => []
  | x :: xs => insertSorted le x (jsStableSort le xs)

theorem insertSorted_perm {α : Type} (le : α → α → Bool) (x : α) (l : List α) :
    List.Perm (insertSorted le x l) (x :: l) := by
  induction l with
  | nil => exact List.Perm.refl _
  | cons y ys ih =>
    unfold insertSorted
    by_cases h : le x y
    · rw [if_pos h]
    · rw [if_neg h]
      exact (List.Perm.cons y ih).trans (List.Perm.swap x y ys)

theorem jsStableSort_perm {α : Type} (le : α → α → Bool) (l : List α) :
    List.Perm (jsStableSort le l) l := by
  induction l with
  | nil => exact List.Perm.refl _
  | cons x xs ih =>
    unfold jsStableSort
    exact (insertSorted_perm le x (jsStableSort le xs)).trans (List.Perm.cons x ih)

/-- The sorting step of `processCommentsWithSearchTerms`, selected by
`sortBy`: descending upvotes, descending timestamp, descending awards, or
(default) descending score. -/
noncomputable def sortComments (sortBy : String) (l : List RedditComment) :
    List RedditComment :=
  if sortBy = "upvotes" then
    jsStableSort (fun a b => decide (b.upvotes ≤ a.upvotes)) l
  else if sortBy = "timestamp" then
    jsStableSort (fun a b => decide (b.timestamp ≤ a.timestamp)) l
  else if sortBy = "awards" then
    jsStableSort (fun a b => decide (b.awards.getD 0 ≤ a.awards.getD 0)) l
  else
    jsStableSort (fun a b => decide (b.score.getD 0 ≤ a.score.getD 0)) l

theorem sortComments_perm (sortBy : String) (l : List RedditComment) :
    List.Perm (sortComments sortBy l) l := by
  unfold sortComments
  split
  · exact jsStableSort_perm _ l
  · split
    · exact jsStableSort_perm _ l
    · split
      · exact jsStableSort_perm _ l
      · exact jsStableSort_perm _ l

/-- Worker for the final duplicate filter, carrying the ids already
emitted. -/
def dedupByIdAux (seen : List String) : List RedditComment → List RedditComment
  | [] => []
  | c :: cs =>
    if seen.contains c.id then dedupByIdAux seen cs
    else c :: dedupByIdAux (c.id :: seen) cs

/-- The final pass `filter((c, i, self) => i === self.findIndex(d => d.id
=== c.id))`: keep the first occurrence of each id. -/
def dedupById (l : List RedditComment) : List RedditComment :=
  dedupByIdAux [] l

/-- Ids of a result list are pairwise distinct. -/
def NodupIds (l : List RedditComment) : Prop :=
  (l.map (fun c => c.id)).Nodup

theorem dedupByIdAux_not_seen (seen : List String) (l : List RedditComment) :
    ∀ x ∈ dedupByIdAux seen l, ¬ seen.contains x.id := by
  induction l generalizing seen with
  | nil => intro x hx; simp [dedupByIdAux] at hx
  | cons c cs ih =>
    intro x hx
    unfold dedupByIdAux at hx
    by_cases h : seen.contains c.id
    · rw [if_pos h] at hx
      exact ih seen x hx
    · rw [if_neg h] at hx
      rcases List.mem_cons.mp hx with hx | hx
      · subst hx
        exact h
      · have := ih (c.id :: seen) x hx
        intro hc
        have hc' : x.id ∈ seen := by simpa using hc
        exact this (by simp [List.contains_cons, hc'])

theorem dedupByIdAux_nodup (seen : List String) (l : List RedditComment) :
    NodupIds (dedupByIdAux seen l) := by
  induction l generalizing seen with
  | nil => simp [dedupByIdAux, NodupIds]
  | cons c cs ih =>
    unfold dedupByIdAux
    by_cases h : seen.contains c.id
    · rw [if_pos h]
      exact ih seen
    · rw [if_neg h]
      unfold NodupIds
      simp only [List.map_cons, List.nodup_cons]
      refine ⟨?_, ih (c.id :: seen)⟩
      intro hmem
      obtain ⟨x, hx, hxid⟩ := List.mem_map.mp hmem
      have := dedupByIdAux_not_seen (c.id :: seen) cs x hx
      exact this (by simp [List.contains_cons, hxid])

theorem dedupById_nodup (l : List RedditComment) : NodupIds (dedupById l) :=
  dedupByIdAux_nodup [] l

theorem dedupByIdAux_subset (seen : List String) (l : List RedditComment) :
    ∀ x ∈ dedupByIdAux seen l, x ∈ l := by
  induction l generalizing seen with
  | nil => intro x hx; simp [dedupByIdAux] at hx
  | cons c cs ih =>
    intro x hx
    unfold dedupByIdAux at hx
    by_cases h : seen.contains c.id
    · rw [if_pos h] at hx
      exact List.mem_cons_of_mem c (ih seen x hx)
    · rw [if_neg h] at hx
      rcases List.mem_cons.mp hx with hx | hx
      · exact hx ▸ List.mem_cons_self c cs
      · exact List.mem_cons_of_mem c (ih (c.id :: seen) x hx)

/-! ## `processCommentsWithSearchTerms`

The `regexes` argument of the source is in one-to-one correspondence with
`searchTerms` (a literal, case-insensitive global regex per term), so the
model passes the term list alone.  The `switch` on `filterType` sends both
`'all'` and any unrecognized value to the same default branch. -/

/-- The filtering/scoring/sorting pipeline of the source: drop comments
below `minUpvotes`; score (and for the text-matching modes filter) by
`filterType`; sort by `sortBy`; remove residual duplicate ids. -/
noncomputable def processCommentsWithSearchTerms (now : Int)
    (comments : List RedditComment) (searchTerms : List String)
    (filterType : String) (query : String) (sortBy : String)
    (minUpvotes : Int) : List RedditComment :=
  let filteredComments := comments.filter (fun c => minUpvotes ≤ c.upvotes)
  let branched :=
    if searchTerms.length = 0 ∧ filterType = "all" then
      filteredComments.map (fun c => { c with score := some (calculateBaseScore now c) })
    else if filterType = "keyword" then
      filteredComments.filterMap (fun c =>
        let matchCount := keywordMatchCount searchTerms c.body
        if 0 < matchCount then
          some { c with matchScore := some matchCount,
                        score := some (calculateScore now c matchCount) }
        else none)
    else if filterType = "subreddit" then
      (filteredComments.filter
          (fun c => toLowerStr c.subreddit == toLowerStr query)).map
        (fun c => { c with score := some (calculateBaseScore now c) })
    else if filterType = "author" then
      (filteredComments.filter
          (fun c => containsSub ((toLowerStr query).data) ((toLowerStr c.author).data))).map
        (fun c => { c with score := some (calculateBaseScore now c) })
    else
      filteredComments.filterMap (fun c =>
        if searchTerms.length = 0 then some c
        else
          let finalMatchCount := allMatchCount query searchTerms c
          if 0 < finalMatchCount then
            some { c with matchScore := some finalMatchCount,
                          score := some (calculateScore now c finalMatchCount) }
          else none)
  dedupById (sortComments sortBy branched)

/-- The fixed demonstration dataset returned on total failure (`now` is the
module-load instant at which the source evaluates `new
Date().toISOString()`). -/
def mockComments (now : Int) : List RedditComment :=
  [ { id := "mock1", author := "tech_enthusiast",
      body := "Modern programming languages like Rust and Go are gaining popularity for their performance characteristics and safety features.",
      subreddit := "programming", upvotes := 128, timestamp := now,
      sentiment := some Sentiment.positive, awards := some 2 },
    { id := "mock2", author := "science_lover",
      body := "The James Webb Space Telescope has revolutionized our understanding of distant galaxies. The images are absolutely stunning!",
      subreddit := "science", upvotes := 243, timestamp := now,
      sentiment := some Sentiment.positive, awards := some 5 },
    { id := "mock3", author := "design_thinker",
      body := "Apple prioritizes simplicity and user experience over feature bloat, which is why their products remain popular despite the premium pricing.",
      subreddit := "technology", upvotes := 87, timestamp := now,
      sentiment := some Sentiment.neutral, awards := some 1 },
    { id := "mock4", author := "movie_critic",
      body := "The latest superhero movie was terrible. The CGI looked cheap and the plot had more holes than Swiss cheese.",
      subreddit := "movies", upvotes := 54, timestamp := now,
      sentiment := some Sentiment.negative, awards := some 0 },
    { id := "mock5", author := "health_advisor",
      body := "Regular exercise and a balanced diet are still the best ways to maintain long-term health, despite all the fad diets that come and go.",
      subreddit := "health", upvotes := 176, timestamp := now,
      sentiment := some Sentiment.positive, awards := some 3 } ]

/-! ## `searchComments`

The request's `query` field is typed `string` but arrives from outside, so
the model distinguishes a text query from a non-text one.  On a non-text
query the very first use, `params.query.toLowerCase()` inside
`getCacheKey`, throws a `TypeError` — before the explicit
`typeof query !== 'string'` validation throw is ever reached — and the
surrounding catch-all converts either throw into the mock fallback.

The network-dependent harvest fan-out is driven by an oracle: `batches`
lists, in arrival order, the flattened per-chunk comment arrays and the
direct-search items surviving the deletion-sentinel checks — exactly the
lists the source feeds one by one through its duplicate-id insertion guard
— and `crash` injects an unexpected exception of the harvest phase
(reaching the outer catch).  Cache reads, the processing pipeline and the
cache write are modelled in full. -/

/-- The value found in the request's `query` field. -/
inductive QueryVal where
  | str (s : String)
  | nonText

/-- `params.query.toLowerCase()`: throws (`none`) unless the query is a
string. -/
def queryLowerOpt : QueryVal → Option String
  | QueryVal.str s => some (toLowerStr s)
  | QueryVal.nonText => none

/-- The `SearchParams` record of the source. -/
structure SParams where
  query : QueryVal
  filterType : String
  timeFrame : String
  sortBy : String
  minUpvotes : Int
  limit : Nat

/-- `getCacheKey`: the underscore-joined normalized request fields and the
page number; `none` models the `TypeError` on a non-text query. -/
def getCacheKey (p : SParams) (page : Nat) : Option String :=
  (queryLowerOpt p.query).map (fun q =>
    q ++ "_" ++ p.filterType ++ "_" ++ p.timeFrame ++ "_" ++ p.sortBy ++ "_"
      ++ toString p.minUpvotes ++ "_" ++ toString p.limit ++ "_" ++ toString page)

/-- `query.toLowerCase().trim().split(/\s+/).filter(t => t.length > 0)`. -/
def splitSearchTerms (q : String) : List String :=
  ((splitPiecesAux [] (trimChars (toLowerStr q).data)).map
      (fun l => String.mk l)).filter (fun t => 0 < t.length)

/-- The oracle driving one harvest. -/
structure HarvestOracle where
  batches : List (List RedditComment)
  crash : Bool

/-- The insertion guard: `if (!allComments.some(c => c.id === comment.id))
allComments.push(comment)`. -/
def insertUnique (acc : List RedditComment) (cm : RedditComment) :
    List RedditComment :=
  if acc.any (fun c => c.id == cm.id) then acc else acc ++ [cm]

/-- Accumulate every arriving batch through the insertion guard. -/
def accumulateComments (batches : List (List RedditComment)) :
    List RedditComment :=
  batches.foldl (fun acc batch => batch.foldl insertUnique acc) []

/-- The throw sites inside the `try` of `searchComments`. -/
inductive PipeError where
  | typeErr
  | validationErr
  | harvestCrash
  | cacheSetCrash
deriving DecidableEq

/-- The body of the `try` block of `searchComments`: cache lookup, (dead)
query validation, harvest accumulation, processing (or the mock dataset
when nothing was harvested), cache write, truncation to `limit`.  An error
carries the cache state at the moment of the throw. -/
noncomputable def searchCommentsBody (o : HarvestOracle) (p : SParams)
    (page : Nat) (c0 : SearchCache) (now : Int) :
    Except (PipeError × SearchCache) (List RedditComment × SearchCache) :=
  match getCacheKey p page with
  | none => Except.error (PipeError.typeErr, c0)
  | some cacheKey =>
    match SearchCache.get c0 cacheKey now with
    | (some cachedResults, c1) => Except.ok (cachedResults, c1)
    | (none, c1) =>
      match p.query with
      | QueryVal.nonText => Except.error (PipeError.validationErr, c1)
      | QueryVal.str q =>
        if o.crash then Except.error (PipeError.harvestCrash, c1)
        else
          let searchTerms := splitSearchTerms q
          let allComments := accumulateComments o.batches
          let processedComments :=
            if 0 < allComments.length then
              processCommentsWithSearchTerms now allComments searchTerms
                p.filterType q p.sortBy p.minUpvotes
            else mockComments now
          match SearchCache.set c1 cacheKey processedComments now with
          | none => Except.error (PipeError.cacheSetCrash, c1)
          | some c2 => Except.ok (processedComments.take p.limit, c2)

/-- `searchComments`: the body wrapped in the catch-all that converts any
thrown error into `mockComments.slice(0, limit)`. -/
noncomputable def searchComments (o : HarvestOracle) (p : SParams)
    (page : Nat) (c0 : SearchCache) (now : Int) :
    List RedditComment × SearchCache :=
  match searchCommentsBody o p page c0 now with
  | Except.ok r => r
  | Except.error (_, cerr) => ((mockComments now).take p.limit, cerr)

/-! ### C8: the exact-phrase bonus -/

/-- Modelled from the claim's wording for comparison: the bonus condition
with the raw query *trimmed* before the length test and the occurrence
test. -/
def claimedPhraseBonus (query body : String) : Nat :=
  if 3 < (jsTrim query).length
      ∧ containsSub ((toLowerStr (jsTrim query)).data) ((toLowerStr body).data)
  then 10 else 0

theorem processAll_mem_shape (now : Int) (comments : List RedditComment)
    (searchTerms : List String) (query : String) (sortBy : String)
    (minUpvotes : Int) (c' : RedditComment)
    (hterms : searchTerms ≠ [])
    (hmem : c' ∈ processCommentsWithSearchTerms now comments searchTerms
        "all" query sortBy minUpvotes) :
    ∃ c, c ∈ comments ∧ minUpvotes ≤ c.upvotes
      ∧ 0 < allMatchCount query searchTerms c
      ∧ c' = { c with matchScore := some (allMatchCount query searchTerms c),
                      score := some (calculateScore now c (allMatchCount query searchTerms c)) } := by
  have hlen : ¬ searchTerms.length = 0 := fun h => hterms (List.length_eq_zero.mp h)
  unfold processCommentsWithSearchTerms at hmem
  dsimp only at hmem
  rw [if_neg (by simp [hlen]), if_neg (by simp), if_neg (by simp),
    if_neg (by simp)] at hmem
  have h1 : c' ∈ sortComments sortBy
      ((comments.filter (fun c => minUpvotes ≤ c.upvotes)).filterMap (fun c =>
        if searchTerms.length = 0 then some c
        else
          let finalMatchCount := allMatchCount query searchTerms c
          if 0 < finalMatchCount then
            some { c with matchScore := some finalMatchCount,
                          score := some (calculateScore now c finalMatchCount) }
          else none)) :=
    dedupByIdAux_subset [] _ c' hmem
  have h2 := (List.Perm.mem_iff (sortComments_perm sortBy _)).mp h1
  obtain ⟨c, hc, hf⟩ := List.mem_filterMap.mp h2
  obtain ⟨hcmem, hup⟩ := List.mem_filter.mp hc
  rw [if_neg hlen] at hf
  simp only at hf
  by_cases hpos : 0 < allMatchCount query searchTerms c
  · rw [if_pos hpos] at hf
    exact ⟨c, hcmem, by simpa using hup, hpos, (Option.some_inj.mp hf).symm⟩
  · rw [if_neg hpos] at hf
    exact absurd hf (by simp)

/-- C8 (amended): in the `all` filter path with a non-empty term list,
every surviving comment records as its match score the per-term
body/author/subreddit contributions plus a flat `+10` exact-phrase bonus
granted exactly when the *raw, untrimmed* query has length > 3 and its
lower-casing occurs verbatim in the lower-cased body (the source applies
no trimming at either step). -/
theorem all_mode_exact_phrase_bonus (now : Int) (comments : List RedditComment)
    (searchTerms : List String) (query : String) (sortBy : String)
    (minUpvotes : Int) (c' : RedditComment)
    (hterms : searchTerms ≠ [])
    (hmem : c' ∈ processCommentsWithSearchTerms now comments searchTerms
        "all" query sortBy minUpvotes) :
    ∃ c, c ∈ comments ∧ minUpvotes ≤ c.upvotes
      ∧ c'.matchScore
          = some ((if 3 < query.length
                ∧ containsSub ((toLowerStr query).data) ((toLowerStr c.body).data)
              then 10 else 0)
            + (searchTerms.map (fun t => termMatchCount t c)).sum)
      ∧ 0 < (if 3 < query.length
                ∧ containsSub ((toLowerStr query).data) ((toLowerStr c.body).data)
              then 10 else 0)
            + (searchTerms.map (fun t => termMatchCount t c)).sum := by
  obtain ⟨c, hcmem, hup, hpos, hshape⟩ :=
    processAll_mem_shape now comments searchTerms query sortBy minUpvotes c'
      hterms hmem
  refine ⟨c, hcmem, hup, ?_, ?_⟩
  · rw [hshape]
    rfl
  · exact hpos

/-- The comment of the C8 counterexample. -/
def commentAB : RedditComment :=
  { id := "c1", author := "zzz", body := "x ab y", subreddit := "s",
    upvotes := 0, timestamp := 0 }

/-- Counterexample for C8 as frozen: with the raw query `" ab "` (length 4,
trimmed length 2) against the body `"x ab y"`, the pipeline's `all` path
awards the `+10` exact-phrase bonus (match score 11 = 1 body occurrence
+ 10), although the claim's trimmed condition (`length > 3` after
trimming) fails and the claim therefore predicts no bonus. -/
theorem exact_phrase_bonus_trim_counterexample :
    splitSearchTerms " ab " = ["ab"]
    ∧ ((processCommentsWithSearchTerms 0 [commentAB] ["ab"] "all" " ab "
          "upvotes" 0).head?.map (fun c => c.matchScore)) = some (some 11)
    ∧ (jsTrim " ab ").length = 2
    ∧ claimedPhraseBonus " ab " "x ab y" = 0 := by
  refine ⟨by decide, ?_, by decide, by decide⟩
  rfl

/-- The comment used by the C8 witness. -/
def commentT : RedditComment :=
  { id := "t1", author := "bob", body := "a test b", subreddit := "s",
    upvotes := 0, timestamp := 0 }

/-- The C8 witness comment after the `all` branch scored it. -/
noncomputable def commentTScored : RedditComment :=
  { commentT with
      matchScore := some (allMatchCount "test" ["test"] commentT),
      score := some (calculateScore 0 commentT (allMatchCount "test" ["test"] commentT)) }

/-- Witness for the amended C8 theorem at a concrete one-comment run. -/
theorem all_mode_exact_phrase_bonus_witness :
    (["test"] : List String) ≠ []
    ∧ commentTScored ∈ processCommentsWithSearchTerms 0 [commentT] ["test"]
        "all" "test" "upvotes" 0
    ∧ ∃ c, c ∈ [commentT] ∧ (0 : Int) ≤ c.upvotes
      ∧ commentTScored.matchScore
          = some ((if 3 < ("test" : String).length
                ∧ containsSub ((toLowerStr "test").data) ((toLowerStr c.body).data)
              then 10 else 0)
            + ((["test"] : List String).map (fun t => termMatchCount t c)).sum)
      ∧ 0 < (if 3 < ("test" : String).length
                ∧ containsSub ((toLowerStr "test").data) ((toLowerStr c.body).data)
              then 10 else 0)
            + ((["test"] : List String).map (fun t => termMatchCount t c)).sum := by
  have hmem : commentTScored ∈ processCommentsWithSearchTerms 0 [commentT]
      ["test"] "all" "test" "upvotes" 0 := by
    have h : processCommentsWithSearchTerms 0 [commentT] ["test"] "all" "test"
        "upvotes" 0 = [commentTScored] := rfl
    rw [h]
    exact List.mem_singleton.mpr rfl
  exact ⟨by simp, hmem,
    all_mode_exact_phrase_bonus 0 [commentT] ["test"] "test" "upvotes" 0
      commentTScored (by simp) hmem⟩

/-! ### C1: no duplicate ids in any returned result sequence -/

theorem insertUnique_nodup (acc : List RedditComment) (cm : RedditComment)
    (h : NodupIds acc) : NodupIds (insertUnique acc cm) := by
  unfold insertUnique
  by_cases hin : acc.any (fun c => c.id == cm.id)
  · rw [if_pos hin]
    exact h
  · rw [if_neg hin]
    unfold NodupIds at h ⊢
    rw [List.map_append]
    simp only [List.map_cons, List.map_nil]
    rw [List.nodup_append]
    refine ⟨h, List.nodup_singleton _, ?_⟩
    intro a ha hb
    simp only [List.mem_singleton] at hb
    subst hb
    obtain ⟨x, hx, hxid⟩ := List.mem_map.mp ha
    simp only [List.any_eq_true, not_exists, not_and] at hin
    exact hin x hx (by simp [hxid])

theorem foldl_insertUnique_nodup (batch : List RedditComment)
    (acc : List RedditComment) (h : NodupIds acc) :
    NodupIds (batch.foldl insertUnique acc) := by
  induction batch generalizing acc with
  | nil => exact h
  | cons cm cms ih =>
    simp only [List.foldl_cons]
    exact ih (insertUnique acc cm) (insertUnique_nodup acc cm h)

theorem accumulateComments_nodup (batches : List (List RedditComment)) :
    NodupIds (accumulateComments batches) := by
  unfold accumulateComments
  have hgen : ∀ (bs : List (List RedditComment)) (acc : List RedditComment),
      NodupIds acc → NodupIds (bs.foldl (fun a b => b.foldl insertUnique a) acc) := by
    intro bs
    induction bs with
    | nil => intro acc h; exact h
    | cons b bs ih =>
      intro acc h
      simp only [List.foldl_cons]
      exact ih _ (foldl_insertUnique_nodup b acc h)
  exact hgen batches [] (by simp [NodupIds])

theorem processCommentsWithSearchTerms_nodup (now : Int)
    (comments : List RedditComment) (searchTerms : List String)
    (filterType query sortBy : String) (minUpvotes : Int) :
    NodupIds (processCommentsWithSearchTerms now comments searchTerms
      filterType query sortBy minUpvotes) :=
  dedupByIdAux_nodup [] _

theorem mockComments_nodup (now : Int) : NodupIds (mockComments now) := by
  simp [NodupIds, mockComments]

theorem take_nodupIds (l : List RedditComment) (n : Nat) (h : NodupIds l) :
    NodupIds (l.take n) := by
  unfold NodupIds at h ⊢
  rw [List.map_take]
  exact List.Nodup.sublist (List.take_sublist n _) h

/-- Every list stored in the cache has pairwise distinct ids. -/
def CacheValuesWF (c : SearchCache) : Prop :=
  ∀ e ∈ c.entries, NodupIds e.2.2

theorem get_values_wf (c : SearchCache) (key : String) (now : Int)
    (h : CacheValuesWF c) : CacheValuesWF (SearchCache.get c key now).2 := by
  unfold SearchCache.get
  split
  · exact h
  · split
    · intro e he
      exact h e (List.Sublist.mem he (List.eraseP_sublist c.entries))
    · exact h

theorem get_value_nodup (c : SearchCache) (key : String) (now : Int)
    (h : CacheValuesWF c) (v : List RedditComment)
    (hv : (SearchCache.get c key now).1 = some v) : NodupIds v := by
  unfold SearchCache.get at hv
  split at hv
  · exact absurd hv (by simp)
  · rename_i e hfind
    split at hv
    · exact absurd hv (by simp)
    · have hmem := List.mem_of_find?_eq_some hfind
      have := h e hmem
      simp only [Option.some_inj] at hv
      exact hv ▸ this

theorem set_values_wf (c : SearchCache) (key : String)
    (v : List RedditComment) (now : Int) (c' : SearchCache)
    (hwf : CacheValuesWF c) (hv : NodupIds v)
    (hset : SearchCache.set c key v now = some c') : CacheValuesWF c' := by
  unfold SearchCache.set at hset
  by_cases h : c.maxSize ≤ c.entries.length
  · rw [if_pos h] at hset
    match hold : oldestEntry c.entries with
    | none => rw [hold] at hset; exact absurd hset (by simp)
    | some old =>
      rw [hold] at hset
      simp only [Option.some_inj] at hset
      subst hset
      intro e he
      rcases jsMapSet_mem _ key now v e he with he' | he'
      · exact hwf e (List.Sublist.mem he' (List.eraseP_sublist c.entries))
      · subst he'
        exact hv
  · rw [if_neg h] at hset
    simp only [Option.some_inj] at hset
    subst hset
    intro e he
    rcases jsMapSet_mem _ key now v e he with he' | he'
    · exact hwf e he'
    · subst he'
      exact hv

/-- C1: the harvest accumulation never re-adds an id already present, the
final pass of the processing pipeline leaves no duplicate ids, and hence —
starting from any cache whose stored lists are duplicate-free —
`searchComments` returns a sequence with pairwise distinct ids on every
path (cache hit, processed harvest, empty-harvest mock data, and the
catch-all fallback), preserving the cache invariant. -/
theorem searchComments_ids_nodup :
    (∀ batches, NodupIds (accumulateComments batches))
    ∧ (∀ l, NodupIds (dedupById l))
    ∧ (∀ (o : HarvestOracle) (p : SParams) (page : Nat) (c0 : SearchCache)
        (now : Int), CacheValuesWF c0 →
        NodupIds (searchComments o p page c0 now).1
          ∧ CacheValuesWF (searchComments o p page c0 now).2) := by
  refine ⟨accumulateComments_nodup, fun l => dedupByIdAux_nodup [] l, ?_⟩
  intro o p page c0 now hwf
  unfold searchComments searchCommentsBody
  cases hk : getCacheKey p page with
  | none =>
    dsimp only
    exact ⟨take_nodupIds _ _ (mockComments_nodup now), hwf⟩
  | some key =>
    dsimp only
    have hc1 : CacheValuesWF (SearchCache.get c0 key now).2 :=
      get_values_wf c0 key now hwf
    cases hget : SearchCache.get c0 key now with
    | mk opt c1 =>
      rw [hget] at hc1
      cases opt with
      | some cached =>
        dsimp only
        have hcached : NodupIds cached :=
          get_value_nodup c0 key now hwf cached (by rw [hget])
        exact ⟨hcached, hc1⟩
      | none =>
        dsimp only
        cases hq : p.query with
        | nonText =>
          dsimp only
          exact ⟨take_nodupIds _ _ (mockComments_nodup now), hc1⟩
        | str q =>
          dsimp only
          by_cases hcrash : o.crash = true
          · rw [if_pos hcrash]
            exact ⟨take_nodupIds _ _ (mockComments_nodup now), hc1⟩
          · rw [if_neg hcrash]
            have hP : NodupIds
                (if 0 < (accumulateComments o.batches).length then
                  processCommentsWithSearchTerms now (accumulateComments o.batches)
                    (splitSearchTerms q) p.filterType q p.sortBy p.minUpvotes
                else mockComments now) := by
              by_cases hlen : 0 < (accumulateComments o.batches).length
              · rw [if_pos hlen]
                exact processCommentsWithSearchTerms_nodup now _ _ _ _ _ _
              · rw [if_neg hlen]
                exact mockComments_nodup now
            cases hset : SearchCache.set c1 key
                (if 0 < (accumulateComments o.batches).length then
                  processCommentsWithSearchTerms now (accumulateComments o.batches)
                    (splitSearchTerms q) p.filterType q p.sortBy p.minUpvotes
                else mockComments now) now with
            | none =>
              dsimp only
              exact ⟨take_nodupIds _ _ (mockComments_nodup now), hc1⟩
            | some c2 =>
              dsimp only
              refine ⟨take_nodupIds _ _ hP, ?_⟩
              exact set_values_wf c1 key _ now c2 hc1 hP hset

/-- Oracle of a harvest in which every outbound fetch contributed nothing
and no unexpected exception occurred. -/
def oracleEmpty : HarvestOracle := { batches := [], crash := false }

/-- Concrete well-formed request used by witnesses. -/
def paramsW : SParams :=
  { query := QueryVal.str "zzz", filterType := "all", timeFrame := "week",
    sortBy := "upvotes", minUpvotes := 0, limit := 5 }

/-- Witness for C1: the dedup theorem applied at a concrete request against
the empty cache. -/
theorem searchComments_ids_nodup_witness :
    CacheValuesWF cacheEmpty
    ∧ NodupIds (searchComments oracleEmpty paramsW 1 cacheEmpty 0).1
    ∧ CacheValuesWF (searchComments oracleEmpty paramsW 1 cacheEmpty 0).2 := by
  have hwf : CacheValuesWF cacheEmpty := by
    intro e he
    simp [cacheEmpty] at he
  exact ⟨hwf,
    (searchComments_ids_nodup.2.2 oracleEmpty paramsW 1 cacheEmpty 0 hwf).1,
    (searchComments_ids_nodup.2.2 oracleEmpty paramsW 1 cacheEmpty 0 hwf).2⟩

/-! ### C2: a non-text query is absorbed, not surfaced -/

/-- The structurally invalid request of the C2 failing input: the `query`
field is not text-typed. -/
def paramsNonText : SParams :=
  { query := QueryVal.nonText, filterType := "all", timeFrame := "week",
    sortBy := "relevance", minUpvotes := 0, limit := 25 }

/-- C2 (recording the code bug): on a request whose query is not
text-typed, the body of `searchComments` does throw (already inside
`getCacheKey`, before the explicit validation throw, which is dead code),
but the surrounding catch-all converts the throw into the mock fallback
result set: `searchComments` returns normally and the validation failure
is never surfaced to the caller, contradicting the claim and §6/§7 of the
spec. -/
theorem nonText_query_not_surfaced :
    searchCommentsBody oracleEmpty paramsNonText 1 cacheEmpty 0
        = Except.error (PipeError.typeErr, cacheEmpty)
    ∧ (searchComments oracleEmpty paramsNonText 1 cacheEmpty 0).1 = mockComments 0
    ∧ (searchComments oracleEmpty paramsNonText 1 cacheEmpty 0).2 = cacheEmpty :=
  ⟨rfl, rfl, rfl⟩

/-! ### C10: truncation to `limit` -/

/-- The C10 counterexample request: `limit = 0`. -/
def paramsLimit0 : SParams :=
  { query := QueryVal.str "zzz", filterType := "all", timeFrame := "week",
    sortBy := "upvotes", minUpvotes := 0, limit := 0 }

/-- Counterexample for C10 as frozen: with `limit = 0`, the first call
(an empty harvest, hence the mock dataset) returns the empty truncation,
but it caches the *untruncated* processed list, and the identical repeat
request is served from the cache without truncation: 5 comments are
returned although `limit = 0`. -/
theorem cached_result_exceeds_limit :
    paramsLimit0.limit = 0
    ∧ (searchComments oracleEmpty paramsLimit0 1 cacheEmpty 0).1 = []
    ∧ (searchComments oracleEmpty paramsLimit0 1
        (searchComments oracleEmpty paramsLimit0 1 cacheEmpty 0).2 0).1.length = 5 :=
  ⟨rfl, rfl, rfl⟩

/-- C10 (amended): on a cache miss — and likewise on the non-text-query
path and the total-failure fallback path — `searchComments` returns at most
`limit` comments, and with `limit = 0` it returns the empty sequence; only
a cache hit escapes truncation. -/
theorem searchComments_limit_on_miss (o : HarvestOracle) (p : SParams)
    (page : Nat) (c0 : SearchCache) (now : Int)
    (hmiss : ∀ k, getCacheKey p page = some k →
      (SearchCache.get c0 k now).1 = none) :
    (searchComments o p page c0 now).1.length ≤ p.limit
    ∧ (p.limit = 0 → (searchComments o p page c0 now).1 = []) := by
  have hfin : ∀ (l : List RedditComment),
      (l.take p.limit).length ≤ p.limit
        ∧ (p.limit = 0 → l.take p.limit = []) :=
    fun l => ⟨by simp [List.length_take_le],
      fun h0 => by rw [h0]; exact List.take_zero l⟩
  unfold searchComments searchCommentsBody
  cases hk : getCacheKey p page with
  | none =>
    dsimp only
    exact hfin (mockComments now)
  | some key =>
    have hnone := hmiss key hk
    dsimp only
    cases hget : SearchCache.get c0 key now with
    | mk opt c1 =>
      rw [hget] at hnone
      simp only at hnone
      subst hnone
      cases hq : p.query with
      | nonText =>
        dsimp only
        exact hfin (mockComments now)
      | str q =>
        dsimp only
        by_cases hcrash : o.crash = true
        · rw [if_pos hcrash]
          exact hfin (mockComments now)
        · rw [if_neg hcrash]
          cases hset : SearchCache.set c1 key
              (if 0 < (accumulateComments o.batches).length then
                processCommentsWithSearchTerms now (accumulateComments o.batches)
                  (splitSearchTerms q) p.filterType q p.sortBy p.minUpvotes
              else mockComments now) now with
          | none =>
            dsimp only
            exact hfin (mockComments now)
          | some c2 =>
            dsimp only
            exact hfin _

/-- Witness for the amended C10 theorem: a concrete request against the
empty cache. -/
theorem searchComments_limit_on_miss_witness :
    (∀ k, getCacheKey paramsW 1 = some k →
      (SearchCache.get cacheEmpty k 0).1 = none)
    ∧ (searchComments oracleEmpty paramsW 1 cacheEmpty 0).1.length ≤ paramsW.limit
    ∧ (paramsW.limit = 0 →
        (searchComments oracleEmpty paramsW 1 cacheEmpty 0).1 = []) := by
  have hmiss : ∀ k, getCacheKey paramsW 1 = some k →
      (SearchCache.get cacheEmpty k 0).1 = none := by
    intro k hk
    rfl
  exact ⟨hmiss,
    (searchComments_limit_on_miss oracleEmpty paramsW 1 cacheEmpty 0 hmiss).1,
    (searchComments_limit_on_miss oracleEmpty paramsW 1 cacheEmpty 0 hmiss).2⟩
